/-
  Verification of the SpectraNet honeypot moderation core.

  Shallow embedding of the scheduling/state core of the repository:
    - src/config/index.ts            (CONFIG.HONEYPOT_ROLES parsing, classification)
    - src/services/ModerationService.ts  (pending-punishment registry, executors)
    - src/services/SchedulerService.ts   (OnboardingDetectionService)
    - src/services/UnbanService.ts       (expiry sweep)
    - src/database/DatabaseManager.ts    (temp_bans persistence)
    - src/handlers/EventHandler.ts       (role-update / message dispatch)

  JavaScript numbers that can be NaN (durations obtained from parseInt) are
  modelled as `Option Int` with `none` standing for NaN; every comparison
  involving NaN is false, exactly as in JS.  Wall-clock instants are plain
  `Int` (milliseconds).  Fallible platform calls are `CallOutcome`
  values supplied by the environment.
-/
import Mathlib

set_option maxRecDepth 4000
set_option linter.unusedVariables false

/-! ## JS number model (NaN-aware) -/

/-- A JS number that may be NaN (`none` = NaN). -/
abbrev JsNum := Option Int

/-- JS addition: NaN propagates. -/
def jadd (a b : JsNum) : JsNum :=
  match a, b with
  | some x, some y => some (x + y)
  | _, _ => none

/-- JS multiplication: NaN propagates. -/
def jmul (a b : JsNum) : JsNum :=
  match a, b with
  | some x, some y => some (x * y)
  | _, _ => none

/-- JS `<=`: any comparison with NaN is false. -/
def jle (a b : JsNum) : Bool :=
  match a, b with
  | some x, some y => x ≤ y
  | _, _ => false

/-- JS `<`: any comparison with NaN is false. -/
def jlt (a b : JsNum) : Bool :=
  match a, b with
  | some x, some y => x < y
  | _, _ => false

/-! ## Association-list helpers (JS `Map` keyed by strings) -/

/-- Lookup in a string-keyed association list (first match, like `Map.get`). -/
def alookup {α : Type} (k : String) : List (String × α) → Option α
  | [] => none
  | (k', v) :: rest => if k' = k then some v else alookup k rest

/-- Remove every binding of a key (like `Map.delete`). -/
def aerase {α : Type} (k : String) (l : List (String × α)) : List (String × α) :=
  l.filter (fun kv => kv.1 != k)

/-- Set a key's binding (like `Map.set`). -/
def aset {α : Type} (k : String) (v : α) (l : List (String × α)) : List (String × α) :=
  (k, v) :: aerase k l

/-! ## Punishment classification and configuration parsing
    (src/config/index.ts, CONFIG.HONEYPOT_ROLES) -/

/-- The two role-punishment types of the source
    (`type: 'timeout' | 'tempban'`). -/
inductive PunishType where
  | timeout
  | tempban
deriving DecidableEq, Repr

/-- Classification `durationDays <= 28 ? 'timeout' : 'tempban'` from src/config/index.ts,
    on a possibly-NaN duration (NaN compares false, hence `tempban`). -/
def classify (durationDays : JsNum) : PunishType :=
  if jle durationDays (some 28) then .timeout else .tempban

/-- One parsed honeypot-role configuration entry:
    `{ duration: durationMs, type }`. -/
structure RoleCfg where
  duration : JsNum
  ptype : PunishType
deriving DecidableEq, Repr

/-- JS `String.prototype.split` with a one-character separator, on the
    character list of the string (`"".split(sep)` is `[""]`). -/
def splitOnChar (sep : Char) : List Char → List (List Char)
  | [] => [[]]
  | c :: rest =>
      let r := splitOnChar sep rest
      if c = sep then [] :: r
      else
        match r with
        | [] => [[c]]
        | h :: t => (c :: h) :: t

/-- JS `String.prototype.split` with a one-character separator. -/
def jsSplit (sep : Char) (s : String) : List String :=
  (splitOnChar sep s.data).map (fun cs => ⟨cs⟩)

/-- JS `String.prototype.trim`: strip leading and trailing whitespace. -/
def jsTrim (s : String) : String :=
  ⟨((s.data.dropWhile Char.isWhitespace).reverse.dropWhile Char.isWhitespace).reverse⟩

/-- Leading decimal digit run to a number, `none` when there is no digit
    (the NaN case of `parseInt`). -/
def digitsToNat (l : List Char) : Option Nat :=
  if l.isEmpty then none
  else some (l.foldl (fun a c => a * 10 + (c.toNat - 48)) 0)

/-- JS `parseInt(s)` (radix 10): skip surrounding whitespace, optional sign,
    read the leading digit run, NaN (`none`) when no digits are found. -/
def jsParseInt (s : String) : JsNum :=
  match (jsTrim s).data with
  | '-' :: rest => (digitsToNat (rest.takeWhile Char.isDigit)).map (fun n => -(n : Int))
  | '+' :: rest => (digitsToNat (rest.takeWhile Char.isDigit)).map (fun n => (n : Int))
  | cs => (digitsToNat (cs.takeWhile Char.isDigit)).map (fun n => (n : Int))

/-- One iteration of the `roleConfig.split(',').forEach` loop of
    src/config/index.ts: trim, split on `:`, skip when the role id or the
    duration part is missing/empty, otherwise build the entry
    `{ duration: durationDays * 86400000, type: durationDays <= 28 ? .. }`. -/
def parseRoleEntry (entry : String) : Option (String × RoleCfg) :=
  match jsSplit ':' (jsTrim entry) with
  | roleId :: durationStr :: _ =>
      if roleId ≠ "" ∧ durationStr ≠ "" then
        let durationDays := jsParseInt durationStr
        some (roleId, ⟨jmul durationDays (some 86400000), classify durationDays⟩)
      else none
  | _ => none

/-- The whole `CONFIG.HONEYPOT_ROLES` initialiser: split the configuration
    string on `,` and accumulate the surviving entries into the role map
    (later entries overwrite earlier ones, like assignment into the object). -/
def parseHoneypotRoles (cfg : String) : List (String × RoleCfg) :=
  (jsSplit ',' cfg).foldl
    (fun acc entry =>
      match parseRoleEntry entry with
      | some (rid, rc) => aset rid rc acc
      | none => acc)
    []

/-! ## Persistence store (src/database/DatabaseManager.ts, temp_bans table) -/

/-- A row of the `temp_bans` table. -/
structure TempBanRow where
  rid : Nat
  userId : String
  guildId : String
  roleId : String
  bannedAt : Int
  unbanAt : JsNum
  reason : String
  active : Bool
deriving DecidableEq, Repr

/-- The persisted `temp_bans` table. -/
abbrev DB := List TempBanRow

/-- Fresh value for the SERIAL primary key. -/
def freshId (db : DB) : Nat :=
  (db.map TempBanRow.rid).foldr (fun a b => max a b) 0 + 1

/-- Source `DatabaseManager.addTempBan`: plain INSERT of a new row with
    `active = true` (`banned_at` defaults to the database clock `now`).
    No existing row is touched. -/
def addTempBan (userId guildId roleId : String) (unbanAt : JsNum)
    (reason : String) (now : Int) (db : DB) : DB :=
  db ++ [⟨freshId db, userId, guildId, roleId, now, unbanAt, reason, true⟩]

/-- Source `DatabaseManager.getExpiredBans`:
    `SELECT * FROM temp_bans WHERE active = true AND unban_at <= NOW()`. -/
def getExpiredBans (now : Int) (db : DB) : List TempBanRow :=
  db.filter (fun r => r.active && jle r.unbanAt (some now))

/-- Source `DatabaseManager.deactivateBan`:
    `UPDATE temp_bans SET active = false WHERE id = $1`. -/
def deactivateBan (rid : Nat) (db : DB) : DB :=
  db.map (fun r => if r.rid = rid then { r with active := false } else r)

/-! ## Moderation executors (src/services/ModerationService.ts) -/

/-- Platform snapshot of a guild member as the handlers see it. -/
structure MemberInfo where
  userId : String
  guildId : String
  joinedAt : Option Int
  roles : List String
deriving DecidableEq, Repr

/-- Outcome of one awaited platform call: it returned, or it threw. -/
inductive CallOutcome where
  | ok
  | thrown
deriving DecidableEq, Repr

/-- Environment supplied by the platform for one execution attempt:
    the permission/privilege predicates and the outcomes of the
    platform calls the source can make. -/
structure ExecEnv where
  hasModerateMembers : Bool
  hasBanMembers : Bool
  moderatable : Bool
  bannable : Bool
  timeoutCall : CallOutcome
  banCall : CallOutcome
  dmCall : CallOutcome
deriving DecidableEq, Repr

/-- Outcome of one executor run, as observable by the caller. -/
inductive ExecResult where
  | noPermission
  | notPunishable
  | platformError
  | success
deriving DecidableEq, Repr

/-- Source `ModerationService.executeTimeout`: permission check, moderatable
    check, then the platform timeout call.  Never touches the database. -/
def executeTimeout (env : ExecEnv) : ExecResult :=
  if !env.hasModerateMembers then .noPermission
  else if !env.moderatable then .notPunishable
  else
    match env.timeoutCall with
    | .thrown => .platformError
    | .ok => .success

/-- Result of `executeTempBan`: the caller-visible outcome, whether the
    pre-ban DM went through, and the database after the call. -/
structure TempBanOutcome where
  result : ExecResult
  dmSent : Bool
  db : DB
deriving DecidableEq, Repr

/-- Source `ModerationService.executeTempBan`: permission check, bannable check,
    best-effort DM (failure swallowed), platform ban, and only after the
    ban call succeeds the insert of a `temp_bans` row with
    `unban_at = Date.now() + duration`.  A thrown ban call propagates and
    the insert never runs. -/
def executeTempBan (env : ExecEnv) (m : MemberInfo) (roleId : String)
    (duration : JsNum) (now : Int) (db : DB) : TempBanOutcome :=
  if !env.hasBanMembers then ⟨.noPermission, false, db⟩
  else if !env.bannable then ⟨.notPunishable, false, db⟩
  else
    let dmSent := match env.dmCall with | .ok => true | .thrown => false
    match env.banCall with
    | .thrown => ⟨.platformError, dmSent, db⟩
    | .ok =>
        ⟨.success, dmSent,
          addTempBan m.userId m.guildId roleId (jadd (some now) duration)
            "Temporarily banned for acquiring honeypot role" now db⟩

/-- Source `ModerationService.banMember` (permanent ban, honeypot channel):
    permission check, bannable check, best-effort DM, platform ban.
    Creates no persisted record. -/
def banMember (env : ExecEnv) : ExecResult :=
  if !env.hasBanMembers then .noPermission
  else if !env.bannable then .notPunishable
  else
    match env.banCall with
    | .thrown => .platformError
    | .ok => .success

/-! ## Pending-punishment registry (src/services/ModerationService.ts) -/

/-- An entry of the `pendingBans` map (interface `PendingBan`); the stored
    `timeout` handle is modelled by the id of the armed timer. -/
structure PendingBan where
  userId : String
  guildId : String
  roleId : String
  memberJoinedAt : Int
  scheduledAt : Int
  timerId : Nat
  ptype : PunishType
  duration : JsNum
deriving DecidableEq, Repr

/-- An armed `setTimeout` whose callback is the delayed-punishment closure;
    the fields are exactly the values the closure captured. -/
structure Timer where
  tid : Nat
  key : String
  userId : String
  guildId : String
  roleId : String
  ptype : PunishType
  duration : JsNum
deriving DecidableEq, Repr

/-- The in-memory state of `ModerationService`: the `pendingBans` map, the
    timers currently armed in the event loop, and a fresh-id counter. -/
structure RegState where
  pendingBans : List (String × PendingBan)
  armed : List Timer
  nextId : Nat
deriving DecidableEq, Repr

/-- Key template of the source: userId, underscore, guildId. -/
def pendingKey (userId guildId : String) : String :=
  userId ++ "_" ++ guildId

/-- Source `ModerationService.cancelPendingBanInternal`: when an entry exists,
    `clearTimeout` its stored handle, delete the map entry and return true;
    otherwise a no-op returning false. -/
def cancelPendingBanInternal (key : String) (s : RegState) : Bool × RegState :=
  match alookup key s.pendingBans with
  | some p =>
      (true,
        { s with
          armed := s.armed.filter (fun t => t.tid != p.timerId),
          pendingBans := aerase key s.pendingBans })
  | none => (false, s)

/-- Source `ModerationService.cancelPendingBan`. -/
def cancelPendingBan (userId guildId : String) (s : RegState) : Bool × RegState :=
  cancelPendingBanInternal (pendingKey userId guildId) s

/-- Common body of `scheduleDelayedTimeout` / `scheduleDelayedTempBan`:
    cancel any existing entry for the key, arm the timer for `delayMs`, and
    store the pending entry (`memberJoinedAt: member.joinedAt || new Date()`,
    `scheduledAt: Date.now() + delayMs`). -/
def scheduleDelayed (pt : PunishType) (m : MemberInfo) (roleId : String)
    (duration : JsNum) (delayMs now : Int) (s : RegState) : RegState :=
  let key := pendingKey m.userId m.guildId
  let s1 := (cancelPendingBanInternal key s).2
  { pendingBans :=
      aset key
        ⟨m.userId, m.guildId, roleId, m.joinedAt.getD now, now + delayMs,
          s1.nextId, pt, duration⟩
        s1.pendingBans,
    armed := ⟨s1.nextId, key, m.userId, m.guildId, roleId, pt, duration⟩ :: s1.armed,
    nextId := s1.nextId + 1 }

/-- Source `ModerationService.scheduleDelayedTimeout`. -/
def scheduleDelayedTimeout (m : MemberInfo) (roleId : String)
    (duration : JsNum) (delayMs now : Int) (s : RegState) : RegState :=
  scheduleDelayed .timeout m roleId duration delayMs now s

/-- Source `ModerationService.scheduleDelayedTempBan`. -/
def scheduleDelayedTempBan (m : MemberInfo) (roleId : String)
    (duration : JsNum) (delayMs now : Int) (s : RegState) : RegState :=
  scheduleDelayed .tempban m roleId duration delayMs now s

/-- Result of one run of the delayed-punishment timer callback. -/
structure FireOutcome where
  executorInvoked : Bool
  execResult : Option ExecResult
  db : DB
  reg : RegState
deriving DecidableEq, Repr

/-- The `setTimeout` callback of `scheduleDelayedTimeout` /
    `scheduleDelayedTempBan`: re-fetch the member (`fetch = none` models the
    fetch throwing, e.g. the member left); when the re-fetched member still
    holds the honeypot role, invoke the executor, otherwise log only; in
    every path — executed, role gone, or error — delete the map entry. -/
def fireDelayedCallback (env : ExecEnv) (t : Timer) (fetch : Option MemberInfo)
    (now : Int) (db : DB) (s : RegState) : FireOutcome :=
  match fetch with
  | none =>
      ⟨false, none, db, { s with pendingBans := aerase t.key s.pendingBans }⟩
  | some cur =>
      if cur.roles.contains t.roleId then
        match t.ptype with
        | .timeout =>
            ⟨true, some (executeTimeout env), db,
              { s with pendingBans := aerase t.key s.pendingBans }⟩
        | .tempban =>
            let o := executeTempBan env cur t.roleId t.duration now db
            ⟨true, some o.result, o.db,
              { s with pendingBans := aerase t.key s.pendingBans }⟩
      else
        ⟨false, none, db, { s with pendingBans := aerase t.key s.pendingBans }⟩

/-! ## Member-facing entry points (timeoutMember / tempBanMember) -/

/-- Constant `10 * 60 * 1000` — the onboarding window of
    `ModerationService.timeoutMember` / `tempBanMember`. -/
def onboardingWindowMs : Int := 10 * 60 * 1000

/-- What one call to `timeoutMember` / `tempBanMember` did. -/
inductive ModOutcome where
  | deferredBy (delayMs : Int)
  | executed (r : ExecResult)
deriving DecidableEq, Repr

/-- Source `ModerationService.timeoutMember`: when the member joined within the
    last 10 minutes, defer via `scheduleDelayedTimeout` with
    `delay = window - timeSinceJoin + 30s`; otherwise (including
    `joinedAt` null, where `timeSinceJoin` is `Infinity`) execute the
    timeout immediately.  Never touches the database. -/
def timeoutMember (env : ExecEnv) (m : MemberInfo) (roleId : String)
    (duration : JsNum) (now : Int) (s : RegState) (db : DB) :
    ModOutcome × RegState × DB :=
  match m.joinedAt with
  | some j =>
      if now - j < onboardingWindowMs then
        let delayMs := onboardingWindowMs - (now - j) + 30 * 1000
        (.deferredBy delayMs,
          scheduleDelayedTimeout m roleId duration delayMs now s, db)
      else (.executed (executeTimeout env), s, db)
  | none => (.executed (executeTimeout env), s, db)

/-- Source `ModerationService.tempBanMember`: same onboarding-window split, with
    `scheduleDelayedTempBan` / `executeTempBan`. -/
def tempBanMember (env : ExecEnv) (m : MemberInfo) (roleId : String)
    (duration : JsNum) (now : Int) (s : RegState) (db : DB) :
    ModOutcome × RegState × DB :=
  match m.joinedAt with
  | some j =>
      if now - j < onboardingWindowMs then
        let delayMs := onboardingWindowMs - (now - j) + 30 * 1000
        (.deferredBy delayMs,
          scheduleDelayedTempBan m roleId duration delayMs now s, db)
      else
        let o := executeTempBan env m roleId duration now db
        (.executed o.result, s, o.db)
  | none =>
      let o := executeTempBan env m roleId duration now db
      (.executed o.result, s, o.db)

/-! ## Event handlers (src/handlers/EventHandler.ts) -/

/-- Observable result of `EventHandler.handleRoleUpdate`. -/
structure RoleUpdateResult where
  cancelRan : Bool
  punish : Option ModOutcome
  reg : RegState
  db : DB
deriving DecidableEq, Repr

/-- Source `EventHandler.handleRoleUpdate`: compute added/removed role ids; when
    some removed role is a configured honeypot role, call
    `cancelPendingBan` for the (user, guild) key; when some added role is a
    configured honeypot role, dispatch on its configured type to
    `timeoutMember` / `tempBanMember`.  The new role set is `m.roles`. -/
def handleRoleUpdate (roles : List (String × RoleCfg)) (env : ExecEnv)
    (oldRoles : List String) (m : MemberInfo) (now : Int)
    (s : RegState) (db : DB) : RoleUpdateResult :=
  let newRoles := m.roles
  let addedRoles := newRoles.filter (fun r => !(oldRoles.contains r))
  let removedRoles := oldRoles.filter (fun r => !(newRoles.contains r))
  let honeypotRoleRemoved := removedRoles.find? (fun r => (alookup r roles).isSome)
  let s1 := if honeypotRoleRemoved.isSome
            then (cancelPendingBan m.userId m.guildId s).2 else s
  match (addedRoles.find? (fun r => (alookup r roles).isSome)).bind
          (fun rid => (alookup rid roles).map (fun cfg => (rid, cfg))) with
  | none => ⟨honeypotRoleRemoved.isSome, none, s1, db⟩
  | some (rid, cfg) =>
      match cfg.ptype with
      | .timeout =>
          let (o, s2, db2) := timeoutMember env m rid cfg.duration now s1 db
          ⟨honeypotRoleRemoved.isSome, some o, s2, db2⟩
      | .tempban =>
          let (o, s2, db2) := tempBanMember env m rid cfg.duration now s1 db
          ⟨honeypotRoleRemoved.isSome, some o, s2, db2⟩

/-- A message-create event as the handler sees it. -/
structure MessageInfo where
  authorBot : Bool
  inGuild : Bool
  channelId : String
  authorId : String
deriving DecidableEq, Repr

/-- What the MessageCreate listener did with a message. -/
inductive MsgAction where
  | ignored
  | honeypotBanned (deleted : Bool) (r : ExecResult)
  | honeypotNoMember
  | xpProcessed
deriving DecidableEq, Repr

/-- The MessageCreate listener of `EventHandler.setupEventListeners`:
    ignore bot/non-guild messages; in a honeypot channel, delete the
    message (best effort, `deleteOk`) and permanently ban the cached
    member — suppressing all further message processing; otherwise fall
    through to the XP path. -/
def handleMessage (honeypotChannels : List String) (env : ExecEnv)
    (msg : MessageInfo) (memberInCache : Option MemberInfo)
    (deleteOk : Bool) : MsgAction :=
  if msg.authorBot || !msg.inGuild then .ignored
  else if honeypotChannels.contains msg.channelId then
    match memberInCache with
    | some _ => .honeypotBanned deleteOk (banMember env)
    | none => .honeypotNoMember
  else .xpProcessed

/-! ## Expiry sweep (src/services/UnbanService.ts) -/

/-- Source `UnbanService.processUnban`: resolve the guild from the client cache —
    when absent, warn and return with the row untouched; otherwise attempt
    the platform unban (success or failure only logged, `unbanOk` has no
    effect on the store) and then `deactivateBan` the row. -/
def processUnban (guildCache : List String) (unbanOk : Bool)
    (ban : TempBanRow) (db : DB) : DB :=
  if guildCache.contains ban.guildId then deactivateBan ban.rid db
  else db

/-- One tick of the `UnbanService.start` interval: read
    `getExpiredBans` once, then `processUnban` each returned row in order. -/
def unbanTick (guildCache : List String) (unbanOk : Bool) (now : Int)
    (db : DB) : DB :=
  (getExpiredBans now db).foldl
    (fun d b => processUnban guildCache unbanOk b d) db

/-! ## Interleaved-event semantics of the registry

    The single-threaded event loop is modelled as a sequence of events:
    punishment requests, cancellations, timer firings (with the platform
    re-fetch outcome as event data) and the shutdown cleanup.  A
    `setTimeout` whose handle was passed to `clearTimeout` never runs, so a
    fire event for a cleared timer id is a no-op. -/

/-- Record of one delayed-punishment callback run. -/
structure FireRecord where
  key : String
  invoked : Bool
deriving DecidableEq, Repr

/-- One event dispatched on the event loop, as far as the registry is
    concerned. -/
inductive RegEvent where
  | evTimeout (env : ExecEnv) (m : MemberInfo) (roleId : String)
      (duration : JsNum) (now : Int)
  | evTempBan (env : ExecEnv) (m : MemberInfo) (roleId : String)
      (duration : JsNum) (now : Int)
  | evCancel (userId guildId : String)
  | evFire (tid : Nat) (env : ExecEnv) (fetch : Option MemberInfo) (now : Int)
  | evCleanup
deriving Repr

/-- Source `ModerationService.cleanup`: `clearTimeout` every stored pending
    handle, then clear the map. -/
def cleanupRegistry (s : RegState) : RegState :=
  { s with
    armed := s.armed.filter
      (fun t => !(s.pendingBans.any (fun kp => kp.2.timerId == t.tid))),
    pendingBans := [] }

/-- One step of the event loop: the state/database transition together
    with the fire records this event produced. -/
def regStep (s : RegState) (db : DB) : RegEvent → RegState × DB × List FireRecord
  | .evTimeout env m roleId d now =>
      ((timeoutMember env m roleId d now s db).2.1,
       (timeoutMember env m roleId d now s db).2.2, [])
  | .evTempBan env m roleId d now =>
      ((tempBanMember env m roleId d now s db).2.1,
       (tempBanMember env m roleId d now s db).2.2, [])
  | .evCancel u g => ((cancelPendingBan u g s).2, db, [])
  | .evFire tid env fetch now =>
      match s.armed.find? (fun t => t.tid == tid) with
      | none => (s, db, [])
      | some t =>
          let s0 := { s with armed := s.armed.filter (fun x => x.tid != tid) }
          ((fireDelayedCallback env t fetch now db s0).reg,
           (fireDelayedCallback env t fetch now db s0).db,
           [⟨t.key, (fireDelayedCallback env t fetch now db s0).executorInvoked⟩])
  | .evCleanup => (cleanupRegistry s, db, [])

/-- Run a sequence of events, accumulating the fire records. -/
def runReg (s : RegState) (db : DB) : List RegEvent → RegState × DB × List FireRecord
  | [] => (s, db, [])
  | e :: es =>
      let (s', db', out) := regStep s db e
      let (s'', db'', outs) := runReg s' db' es
      (s'', db'', out ++ outs)

/-- The (user, guild) key an event may schedule a new punishment for. -/
def eventSchedKey : RegEvent → Option String
  | .evTimeout _ m _ _ _ => some (pendingKey m.userId m.guildId)
  | .evTempBan _ m _ _ _ => some (pendingKey m.userId m.guildId)
  | _ => none

/-- Well-formedness of the registry state, maintained by the event loop:
    armed timer ids are fresh and distinct, every armed timer is the one
    stored in its key's map entry, and stored handles are fresh. -/
def GoodState (s : RegState) : Prop :=
  (∀ t ∈ s.armed, t.tid < s.nextId) ∧
  (s.armed.map Timer.tid).Nodup ∧
  (∀ t ∈ s.armed, (alookup t.key s.pendingBans).map PendingBan.timerId = some t.tid) ∧
  (∀ kp ∈ s.pendingBans, kp.2.timerId < s.nextId)

/-- No live state for a key: no map entry and no armed timer. -/
def keyClear (k : String) (s : RegState) : Prop :=
  alookup k s.pendingBans = none ∧ ∀ t ∈ s.armed, t.key ≠ k

instance (s : RegState) : Decidable (GoodState s) := by
  unfold GoodState; exact inferInstance

instance (k : String) (s : RegState) : Decidable (keyClear k s) := by
  unfold keyClear; exact inferInstance

/-! ## Onboarding tracking (OnboardingDetectionService,
    src/services/SchedulerService.ts) -/

/-- An `onboardingUsers` record. -/
structure OnboardingUser where
  joinedAt : Int
  rulesAccepted : Bool
deriving DecidableEq, Repr

/-- Tracker state: the per-user records, and the `setTimeout`-scheduled
    `onOnboardingComplete` invocations (user id, settle delay ms) that have
    been armed but have not run yet. -/
structure TrackerState where
  onboardingUsers : List (String × OnboardingUser)
  scheduledCompletions : List (String × Int)
deriving DecidableEq, Repr

/-- The GuildMemberAdd listener: insert (overwriting) the record
    `{joinedAt: now, rulesAccepted: false}`. -/
def onMemberJoin (u : String) (now : Int) (s : TrackerState) : TrackerState :=
  { s with onboardingUsers := aset u ⟨now, false⟩ s.onboardingUsers }

/-- The GuildMemberUpdate listener of `setupOnboardingDetection`: when the
    member just completed rules agreement (`oldMember.pending` and not
    `newMember.pending`), mark the record accepted when one exists and —
    unconditionally — schedule `onOnboardingComplete` after the 5s settle
    delay.  Any other update only logs. -/
def onGuildMemberUpdate (u : String) (oldPending newPending : Bool)
    (s : TrackerState) : TrackerState :=
  if oldPending && !newPending then
    let users :=
      match alookup u s.onboardingUsers with
      | some r => aset u { r with rulesAccepted := true } s.onboardingUsers
      | none => s.onboardingUsers
    { onboardingUsers := users,
      scheduledCompletions := s.scheduledCompletions ++ [(u, 5 * 1000)] }
  else s

/-- The MessageCreate fallback listener: for a non-bot guild message from a
    tracked user whose rules are not yet accepted, mark accepted and
    schedule `onOnboardingComplete` after the 10s settle delay. -/
def onTrackedMessage (u : String) (authorBot inGuild memberPresent : Bool)
    (s : TrackerState) : TrackerState :=
  if authorBot || !inGuild || !memberPresent then s
  else
    match alookup u s.onboardingUsers with
    | some r =>
        if r.rulesAccepted then s
        else
          { onboardingUsers := aset u { r with rulesAccepted := true } s.onboardingUsers,
            scheduledCompletions := s.scheduledCompletions ++ [(u, 10 * 1000)] }
    | none => s

/-- Source `onOnboardingComplete`: delete the record, then derive the punishment
    targets from the member's current role set filtered through the
    honeypot-role map.  Returns the new state and the role ids punished. -/
def onOnboardingComplete (roles : List (String × RoleCfg)) (m : MemberInfo)
    (s : TrackerState) : TrackerState × List String :=
  ({ s with onboardingUsers := aerase m.userId s.onboardingUsers },
    m.roles.filter (fun r => (alookup r roles).isSome))

/-- Remove one armed completion timer for a user (the one that fired). -/
def removeOneCompletion (u : String) : List (String × Int) → List (String × Int)
  | [] => []
  | (v, d) :: rest =>
      if v = u then rest else (v, d) :: removeOneCompletion u rest

/-- Cleanup sweep of `setupOnboardingDetection`: drop records older than
    15 minutes. -/
def trackerSweep (now : Int) (s : TrackerState) : TrackerState :=
  { s with
    onboardingUsers :=
      s.onboardingUsers.filter
        (fun kv => !(decide (15 * 60 * 1000 < now - kv.2.joinedAt))) }

/-- One event relevant to the onboarding tracker. -/
inductive TrackerEvent where
  | join (u : String) (now : Int)
  | update (u : String) (oldPending newPending : Bool)
  | msg (u : String) (authorBot inGuild memberPresent : Bool)
  | complete (m : MemberInfo)
  | sweep (now : Int)
deriving Repr

/-- One tracker step; the returned list holds the user id for each
    `onOnboardingComplete` invocation this event caused.  A `complete`
    event consumes one armed settle timer (a timer that was never armed
    cannot fire). -/
def trackerStep (roles : List (String × RoleCfg)) (s : TrackerState) :
    TrackerEvent → TrackerState × List String
  | .join u now => (onMemberJoin u now s, [])
  | .update u op np => (onGuildMemberUpdate u op np s, [])
  | .msg u bot ig mp => (onTrackedMessage u bot ig mp s, [])
  | .complete m =>
      if s.scheduledCompletions.any (fun p => p.1 == m.userId) then
        let s1 := { s with
          scheduledCompletions := removeOneCompletion m.userId s.scheduledCompletions }
        ((onOnboardingComplete roles m s1).1, [m.userId])
      else (s, [])
  | .sweep now => (trackerSweep now s, [])

/-- Run a sequence of tracker events, accumulating completion-callback
    invocations. -/
def runTracker (roles : List (String × RoleCfg)) (s : TrackerState) :
    List TrackerEvent → TrackerState × List String
  | [] => (s, [])
  | e :: es =>
      let (s', out) := trackerStep roles s e
      let (s'', outs) := runTracker roles s' es
      (s'', out ++ outs)

/-- Every row with this id is inactive. -/
def rowInactive (i : Nat) (db : DB) : Prop :=
  ∀ r ∈ db, r.rid = i → r.active = false

instance (i : Nat) (db : DB) : Decidable (rowInactive i db) := by
  unfold rowInactive; exact inferInstance

/-- The `pendingBans` map binds each key at most once. -/
def KeysNodup (s : RegState) : Prop :=
  (s.pendingBans.map Prod.fst).Nodup

instance (s : RegState) : Decidable (KeysNodup s) := by
  unfold KeysNodup; exact inferInstance

/-! ## Concrete fixtures used by witnesses and counterexamples -/

/-- Environment where every check passes and every platform call succeeds. -/
def envOk : ExecEnv := ⟨true, true, true, true, .ok, .ok, .ok⟩

/-- A member of guild "g" holding the honeypot role "r". -/
def memberU : MemberInfo := ⟨"u", "g", some 0, ["r"]⟩

/-- Registry with no pending punishments. -/
def regEmpty : RegState := ⟨[], [], 0⟩

/-- Registry after scheduling one delayed timeout for `memberU`. -/
def regOnePending : RegState :=
  scheduleDelayedTimeout memberU "r" (some 86400000) 1000 0 regEmpty

/-- An active temp-ban row for ("u", "g"). -/
def rowUG : TempBanRow := ⟨1, "u", "g", "r", 0, some 50, "x", true⟩

/-- An active temp-ban row for ("u", "g") that is already expired at t=5. -/
def rowExpired : TempBanRow := ⟨1, "u", "g", "r", 0, some 0, "x", true⟩

/-- A one-role honeypot configuration: role "r", 90 days, tempban. -/
def rolesFix : List (String × RoleCfg) := [("r", ⟨some 7776000000, .tempban⟩)]

/-! ## Association-list lemmas -/

theorem alookup_aerase_self {α : Type} (k : String) (l : List (String × α)) :
    alookup k (aerase k l) = none := by
  induction l with
  | nil => rfl
  | cons kv rest ih =>
      simp only [aerase, List.filter_cons] at *
      by_cases h : kv.1 = k
      · simp [h, ih]
      · simp [h, alookup, ih]

theorem alookup_aset_self {α : Type} (k : String) (v : α) (l : List (String × α)) :
    alookup k (aset k v l) = some v := by
  simp [aset, alookup]

theorem alookup_filter_none {α : Type} (k : String) (p : String × α → Bool)
    (l : List (String × α)) (h : alookup k l = none) :
    alookup k (l.filter p) = none := by
  induction l with
  | nil => rfl
  | cons kv rest ih =>
      simp only [alookup] at h
      by_cases hk : kv.1 = k
      · simp [hk] at h
      · simp only [List.filter_cons]
        by_cases hp : p kv
        · simp [hp, alookup, hk, ih (by simpa [hk] using h)]
        · simp [hp, ih (by simpa [hk] using h)]

theorem alookup_aerase_ne {α : Type} (k k' : String) (hk : k ≠ k')
    (v : α) (l : List (String × α)) (h : alookup k l = none) :
    alookup k (aset k' v l) = none := by
  simp only [aset, alookup, hk.symm]
  simp [fun hh : k' = k => hk hh.symm]
  exact alookup_filter_none k _ l h

/-- Claim C2 (confirmed): when a scheduled pending-punishment timer fires,
    the decision is taken on the freshly fetched member (the `fetch`
    argument of the callback, not any snapshot stored at schedule time):
    the punishment executor is invoked exactly when the fetch succeeds and
    the fetched member still holds the trigger `roleId`; and in every
    outcome — executed, role-gone no-op, or fetch error (member left) —
    the entry for the key is removed from the `pendingBans` registry. -/
theorem c2_timer_fire_semantics (env : ExecEnv) (t : Timer)
    (fetch : Option MemberInfo) (now : Int) (db : DB) (s : RegState) :
    ((fireDelayedCallback env t fetch now db s).executorInvoked = true
      ↔ ∃ cur, fetch = some cur ∧ t.roleId ∈ cur.roles) ∧
    alookup t.key (fireDelayedCallback env t fetch now db s).reg.pendingBans = none := by
  cases fetch with
  | none => simp [fireDelayedCallback, alookup_aerase_self]
  | some cur =>
      by_cases hr : t.roleId ∈ cur.roles
      · cases hp : t.ptype <;>
          simp [fireDelayedCallback, hp, List.elem_iff.mpr hr, alookup_aerase_self, hr]
      · have : cur.roles.contains t.roleId = false := by
          simp [List.elem_iff]; exact hr
        cases hp : t.ptype <;>
          simp [fireDelayedCallback, hp, this, alookup_aerase_self, hr]

/-- Claim C5 (confirmed): for every non-negative configured duration in
    days `d`, the classification is `timeout` iff `d ≤ 28` and `tempban`
    iff `28 < d`; a non-bot message in a configured honeypot channel from
    a cached member is always answered with the permanent `banMember`
    action, independent of any configured duration (the message path never
    consults one). -/
theorem c5_classification (d : Int) (hd : 0 ≤ d)
    (chans : List String) (env : ExecEnv) (msg : MessageInfo)
    (member : MemberInfo) (deleteOk : Bool)
    (hbot : msg.authorBot = false) (hg : msg.inGuild = true)
    (hch : msg.channelId ∈ chans) :
    ((classify (some d) = .timeout ↔ d ≤ 28) ∧
     (classify (some d) = .tempban ↔ 28 < d)) ∧
    handleMessage chans env msg (some member) deleteOk
      = .honeypotBanned deleteOk (banMember env) := by
  refine ⟨⟨?_, ?_⟩, ?_⟩
  · by_cases h : d ≤ 28 <;> simp [classify, jle, h]
  · rw [show (28 < d) = ¬(d ≤ 28) from by simp [not_le]]
    by_cases h : d ≤ 28
    · simp [classify, jle, h]
    · simp [classify, jle, h]
  · simp [handleMessage, hbot, hg, hch]

theorem c5_classification_witness :
    (0 ≤ (7:Int)) ∧
    (((classify (some 7) = .timeout ↔ (7:Int) ≤ 28) ∧
      (classify (some 7) = .tempban ↔ 28 < (7:Int))) ∧
     handleMessage ["hc"] envOk ⟨false, true, "hc", "u"⟩ (some memberU) true
       = .honeypotBanned true (banMember envOk)) :=
  ⟨by decide,
   c5_classification 7 (by decide) ["hc"] envOk ⟨false, true, "hc", "u"⟩ memberU true
     rfl rfl (by decide)⟩

/-- Claim C10 (confirmed): when the member's join timestamp is unknown
    (`joinedAt` null), `timeoutMember` and `tempBanMember` never defer:
    the JS `timeSinceJoin` is `Infinity`, the onboarding-window branch is
    not taken, the corresponding execute function runs immediately, and
    the registry state is returned unchanged (no pending entry created). -/
theorem c10_null_joinedAt_immediate (env : ExecEnv) (u g roleId : String)
    (rs : List String) (duration : JsNum) (now : Int) (s : RegState) (db : DB) :
    timeoutMember env ⟨u, g, none, rs⟩ roleId duration now s db
      = (.executed (executeTimeout env), s, db) ∧
    tempBanMember env ⟨u, g, none, rs⟩ roleId duration now s db
      = (.executed (executeTempBan env ⟨u, g, none, rs⟩ roleId duration now db).result,
         s, (executeTempBan env ⟨u, g, none, rs⟩ roleId duration now db).db) := by
  exact ⟨rfl, rfl⟩

/-- Claim C6 (confirmed): when `executeTempBan` passes its permission and
    bannable checks and the platform ban call succeeds, it appends exactly
    one `temp_bans` row with `unbanAt = now + duration` and `active = true`;
    whenever the run does not reach success the store is unchanged (the
    persist happens only after the ban call succeeds); and the timeout
    path (`timeoutMember` / `executeTimeout`) never changes the store. -/
theorem c6_tempban_record (env : ExecEnv) (m : MemberInfo) (roleId : String)
    (d : Int) (now : Int) (db : DB)
    (hperm : env.hasBanMembers = true) (hban : env.bannable = true)
    (hok : env.banCall = .ok) :
    (executeTempBan env m roleId (some d) now db).db
      = db ++ [⟨freshId db, m.userId, m.guildId, roleId, now, some (now + d),
                "Temporarily banned for acquiring honeypot role", true⟩] ∧
    (∀ env₂ m₂ r₂ d₂ now₂ db₂,
        (executeTempBan env₂ m₂ r₂ d₂ now₂ db₂).result ≠ .success →
        (executeTempBan env₂ m₂ r₂ d₂ now₂ db₂).db = db₂) ∧
    (∀ env₃ m₃ r₃ d₃ now₃ s₃ db₃,
        (timeoutMember env₃ m₃ r₃ d₃ now₃ s₃ db₃).2.2 = db₃) := by
  refine ⟨?_, ?_, ?_⟩
  · simp [executeTempBan, hperm, hban, hok, addTempBan, jadd]
  · intro env₂ m₂ r₂ d₂ now₂ db₂ hne
    unfold executeTempBan at *
    by_cases h1 : env₂.hasBanMembers
    · by_cases h2 : env₂.bannable
      · cases hb : env₂.banCall
        · simp [h1, h2, hb] at hne
        · simp [h1, h2, hb]
      · simp [h1, h2]
    · simp [h1]
  · intro env₃ m₃ r₃ d₃ now₃ s₃ db₃
    cases hj : m₃.joinedAt <;> simp [timeoutMember, hj]
    split <;> rfl

theorem c6_tempban_record_witness :
    envOk.hasBanMembers = true ∧ envOk.bannable = true ∧ envOk.banCall = .ok ∧
    ((executeTempBan envOk memberU "r" (some 100) 5 []).db
      = [] ++ [⟨freshId [], "u", "g", "r", 5, some 105,
                "Temporarily banned for acquiring honeypot role", true⟩] ∧
     (∀ env₂ m₂ r₂ d₂ now₂ db₂,
        (executeTempBan env₂ m₂ r₂ d₂ now₂ db₂).result ≠ .success →
        (executeTempBan env₂ m₂ r₂ d₂ now₂ db₂).db = db₂) ∧
     (∀ env₃ m₃ r₃ d₃ now₃ s₃ db₃,
        (timeoutMember env₃ m₃ r₃ d₃ now₃ s₃ db₃).2.2 = db₃)) :=
  ⟨rfl, rfl, rfl, by
    have h := c6_tempban_record envOk memberU "r" 100 5 [] rfl rfl rfl
    simpa [memberU] using h⟩

/-- Claim C9 counterexample: the configuration entry "123:abc" is
    malformed — its duration part does not parse (`jsParseInt "abc"` is
    NaN) — yet it is not skipped: the resulting role map contains an entry
    for role "123" with NaN duration, classified `tempban`. -/
theorem c9_counterexample :
    jsParseInt "abc" = none ∧
    parseHoneypotRoles "123:abc" = [("123", ⟨none, .tempban⟩)] := by decide

/-- Claim C9 (corrected): parsing happens entrywise at startup and a
    malformed entry never aborts it, but only entries missing the role-id
    or the duration part (no colon, or an empty part) are skipped.  An
    entry whose two parts are present always yields one role entry: with
    `duration = days * 86400000` ms and type `classify days` when the
    duration parses as an integer, and with NaN duration and type
    `tempban` when it does not.  Each surviving entry is bound in the role
    map under its role id. -/
theorem c9_parse_behaviour (entry r ds : String) (dd : Int)
    (hsplit : jsSplit ':' (jsTrim entry) = [r, ds])
    (hr : r ≠ "") (hd : ds ≠ "") (hnum : jsParseInt ds = some dd) :
    parseRoleEntry entry
      = some (r, ⟨some (dd * 86400000), classify (some dd)⟩) ∧
    (∀ e₂ r₂ ds₂ rest₂, jsSplit ':' (jsTrim e₂) = r₂ :: ds₂ :: rest₂ →
        r₂ ≠ "" → ds₂ ≠ "" → jsParseInt ds₂ = none →
        parseRoleEntry e₂ = some (r₂, ⟨none, .tempban⟩)) ∧
    (∀ e₃ r₃, jsSplit ':' (jsTrim e₃) = [r₃] → parseRoleEntry e₃ = none) ∧
    (∀ e₄ ds₄ rest₄, jsSplit ':' (jsTrim e₄) = "" :: ds₄ :: rest₄ →
        parseRoleEntry e₄ = none) ∧
    (∀ e₅ r₅ rest₅, jsSplit ':' (jsTrim e₅) = r₅ :: "" :: rest₅ →
        parseRoleEntry e₅ = none) ∧
    (∀ (rid : String) (rc : RoleCfg) (acc : List (String × RoleCfg)),
        alookup rid (aset rid rc acc) = some rc) := by
  refine ⟨?_, ?_, ?_, ?_, ?_, ?_⟩
  · simp [parseRoleEntry, hsplit, hr, hd, hnum, jmul]
  · intro e₂ r₂ ds₂ rest₂ hs₂ hr₂ hd₂ hn₂
    simp [parseRoleEntry, hs₂, hr₂, hd₂, hn₂, jmul, classify, jle]
  · intro e₃ r₃ hs₃
    simp [parseRoleEntry, hs₃]
  · intro e₄ ds₄ rest₄ hs₄
    simp [parseRoleEntry, hs₄]
  · intro e₅ r₅ rest₅ hs₅
    simp [parseRoleEntry, hs₅]
  · intro rid rc acc
    exact alookup_aset_self rid rc acc

theorem c9_parse_behaviour_witness :
    (jsSplit ':' (jsTrim "12:34") = ["12", "34"] ∧ ("12":String) ≠ "" ∧
     ("34":String) ≠ "" ∧ jsParseInt "34" = some 34) ∧
    parseRoleEntry "12:34"
      = some ("12", ⟨some (34 * 86400000), classify (some 34)⟩) := by
  refine ⟨⟨by decide, by decide, by decide, by decide⟩, ?_⟩
  exact (c9_parse_behaviour "12:34" "12" "34" 34 (by decide) (by decide)
    (by decide) (by decide)).1

/-- Claim C3 counterexample: after a member joins, sends a first message
    (fallback completion signal) and then clears the rules gate, two
    completion timers are armed and the completion callback runs twice for
    the same tracked onboarding record — refuting "at most one completion
    callback ever fires per tracked record". -/
theorem c3_counterexample :
    ((runTracker [("r", ⟨some 86400000, .timeout⟩)] ⟨[], []⟩
        [.join "u" 0, .msg "u" false true true, .update "u" true false,
         .complete ⟨"u", "g", some 0, ["r"]⟩,
         .complete ⟨"u", "g", some 0, ["r"]⟩]).2.count "u") = 2 := by decide

/-- Claim C3 (corrected): only the first-message fallback is guarded by
    the tracked record, so after the rules-gate signal has been processed
    for a user a later first-message event schedules no further completion
    callback; the rules-gate signal itself is unguarded, so in the
    opposite order the callback can fire twice (see the counterexample).
    Within each callback invocation the record is removed before the
    punishment check, and the punished roles are derived from the passed
    (re-fetched) member's current role set. -/
theorem c3_completion_guards (u : String) (s : TrackerState)
    (bot ig mp : Bool) (roles : List (String × RoleCfg)) :
    (onTrackedMessage u bot ig mp (onGuildMemberUpdate u true false s)).scheduledCompletions
      = (onGuildMemberUpdate u true false s).scheduledCompletions ∧
    (∀ m s', alookup m.userId ((onOnboardingComplete roles m s').1.onboardingUsers) = none) ∧
    (∀ m s', (onOnboardingComplete roles m s').2
        = m.roles.filter (fun r => (alookup r roles).isSome)) := by
  refine ⟨?_, ?_, ?_⟩
  · by_cases hb : (bot || !ig || !mp) = true
    · simp [onTrackedMessage, hb]
    · cases hl : alookup u s.onboardingUsers with
      | none =>
          simp [onGuildMemberUpdate, hl, onTrackedMessage, hb]
      | some r =>
          simp [onGuildMemberUpdate, hl, onTrackedMessage, hb,
            alookup_aset_self]
  · intro m s'
    simp [onOnboardingComplete, alookup_aerase_self]
  · intro m s'
    rfl

/-! ## Expiry-sweep lemmas -/

theorem rowInactive_deactivate (i : Nat) (db : DB) :
    rowInactive i (deactivateBan i db) := by
  intro r hr hid
  simp only [deactivateBan, List.mem_map] at hr
  obtain ⟨r₀, hr₀, hmap⟩ := hr
  by_cases h : r₀.rid = i
  · simp [h] at hmap; simp [← hmap]
  · simp [h] at hmap; subst hmap; exact absurd hid h

theorem rowInactive_deactivate_mono (i j : Nat) (db : DB)
    (h : rowInactive i db) : rowInactive i (deactivateBan j db) := by
  intro r hr hid
  simp only [deactivateBan, List.mem_map] at hr
  obtain ⟨r₀, hr₀, hmap⟩ := hr
  by_cases hj : r₀.rid = j
  · simp [hj] at hmap; simp [← hmap]
  · simp [hj] at hmap; subst hmap; exact h r₀ hr₀ hid

theorem rowInactive_processUnban (i : Nat) (gc : List String) (ok : Bool)
    (b : TempBanRow) (db : DB) (h : rowInactive i db) :
    rowInactive i (processUnban gc ok b db) := by
  unfold processUnban
  split
  · exact rowInactive_deactivate_mono i b.rid db h
  · exact h

theorem rowInactive_foldl (i : Nat) (gc : List String) (ok : Bool)
    (l : List TempBanRow) :
    ∀ db : DB, rowInactive i db →
      rowInactive i (l.foldl (fun d b => processUnban gc ok b d) db) := by
  induction l with
  | nil => intro db h; exact h
  | cons a l ih =>
      intro db h
      exact ih _ (rowInactive_processUnban i gc ok a db h)

theorem rowInactive_foldl_of_mem (gc : List String) (ok : Bool)
    (b : TempBanRow) (hg : b.guildId ∈ gc) (l : List TempBanRow) :
    ∀ db : DB, b ∈ l →
      rowInactive b.rid (l.foldl (fun d b => processUnban gc ok b d) db) := by
  induction l with
  | nil => intro db h; cases h
  | cons a l ih =>
      intro db hmem
      simp only [List.foldl_cons]
      rcases List.mem_cons.mp hmem with hba | hbl
      · subst hba
        refine rowInactive_foldl b.rid gc ok l (processUnban gc ok b db) ?_
        have hc : gc.contains b.guildId = true := List.elem_iff.mpr hg
        simp only [processUnban, hc, if_true]
        exact rowInactive_deactivate b.rid db
      · exact ih _ hbl

/-- Claim C4 counterexample: an expired active record whose guild is not
    in the client cache is selected by `getExpiredBans` (hence processed by
    the sweep) but `processUnban` returns early without deactivating it,
    so it stays active and is processed again on every later tick —
    refuting "marked inactive regardless of the unban outcome". -/
theorem c4_counterexample :
    getExpiredBans 5 [rowExpired] = [rowExpired] ∧
    unbanTick [] true 5 [rowExpired] = [rowExpired] ∧
    rowExpired.active = true := by decide

/-- Claim C4 (corrected): each sweep tick processes exactly the rows with
    `active = true` and `unbanAt ≤ now`; a processed row whose guild is
    found in the client cache is marked inactive regardless of whether the
    platform unban call succeeded or failed (the store result is
    independent of the unban outcome), while a row whose guild is missing
    from the cache is left active; rows already inactive stay inactive and
    are never selected by `getExpiredBans` again. -/
theorem c4_sweep_behaviour (gc : List String) (ok : Bool) (now : Int)
    (db : DB) (b : TempBanRow)
    (hb : b ∈ getExpiredBans now db) (hg : b.guildId ∈ gc) :
    (∀ r, r ∈ getExpiredBans now db
        ↔ r ∈ db ∧ r.active = true ∧ jle r.unbanAt (some now) = true) ∧
    rowInactive b.rid (unbanTick gc ok now db) ∧
    (∀ ok₂, unbanTick gc ok now db = unbanTick gc ok₂ now db) ∧
    (∀ i, rowInactive i db → rowInactive i (unbanTick gc ok now db)) ∧
    (∀ i, rowInactive i db → ∀ r ∈ getExpiredBans now db, r.rid ≠ i) := by
  refine ⟨?_, ?_, ?_, ?_, ?_⟩
  · intro r
    simp [getExpiredBans, List.mem_filter, and_assoc]
  · exact rowInactive_foldl_of_mem gc ok b hg (getExpiredBans now db) db hb
  · intro ok₂; rfl
  · intro i h
    exact rowInactive_foldl i gc ok (getExpiredBans now db) db h
  · intro i h r hr hri
    have := (List.mem_filter.mp hr)
    have hact : r.active = true := by
      have := this.2; simp at this; exact this.1
    have := h r this.1 hri
    simp [hact] at this

theorem c4_sweep_behaviour_witness :
    (rowExpired ∈ getExpiredBans 5 [rowExpired] ∧ rowExpired.guildId ∈ ["g"]) ∧
    rowInactive rowExpired.rid (unbanTick ["g"] true 5 [rowExpired]) :=
  ⟨⟨by decide, by decide⟩,
   (c4_sweep_behaviour ["g"] true 5 [rowExpired] rowExpired (by decide) (by decide)).2.1⟩

/-! ## Registry lemmas -/

theorem cancelInternal_nextId (k : String) (s : RegState) :
    (cancelPendingBanInternal k s).2.nextId = s.nextId := by
  cases h : alookup k s.pendingBans <;> simp [cancelPendingBanInternal, h]

theorem keyClear_after_cancel (k : String) (s : RegState) (hs : GoodState s) :
    keyClear k (cancelPendingBanInternal k s).2 := by
  obtain ⟨h1, h2, h3, h4⟩ := hs
  cases h : alookup k s.pendingBans with
  | none =>
      simp only [cancelPendingBanInternal, h]
      refine ⟨h, ?_⟩
      intro t ht hk
      have h3t := h3 t ht
      rw [hk, h] at h3t
      simp at h3t
  | some p =>
      simp only [cancelPendingBanInternal, h]
      refine ⟨alookup_aerase_self k s.pendingBans, ?_⟩
      intro t ht hk
      have htf := List.mem_filter.mp ht
      have h3t := h3 t htf.1
      rw [hk, h] at h3t
      simp at h3t
      have := htf.2
      simp [bne_iff_ne, h3t] at this

theorem keyClear_cancelInternal (k k' : String) (s : RegState)
    (hk : keyClear k s) : keyClear k (cancelPendingBanInternal k' s).2 := by
  obtain ⟨hm, ha⟩ := hk
  cases h : alookup k' s.pendingBans with
  | none => simpa [cancelPendingBanInternal, h] using ⟨hm, ha⟩
  | some p =>
      simp only [cancelPendingBanInternal, h]
      refine ⟨alookup_filter_none k _ _ hm, ?_⟩
      intro t ht
      exact ha t (List.mem_filter.mp ht).1

theorem keyClear_scheduleDelayed (k : String) (pt : PunishType)
    (m : MemberInfo) (roleId : String) (dur : JsNum) (delay now : Int)
    (s : RegState) (hk : keyClear k s)
    (hne : pendingKey m.userId m.guildId ≠ k) :
    keyClear k (scheduleDelayed pt m roleId dur delay now s) := by
  obtain ⟨hm, ha⟩ :=
    keyClear_cancelInternal k (pendingKey m.userId m.guildId) s hk
  unfold scheduleDelayed
  refine ⟨?_, ?_⟩
  · exact alookup_aerase_ne k _ (fun hh => hne hh.symm) _ _ hm
  · intro t ht
    rcases List.mem_cons.mp ht with hnew | hold
    · subst hnew; exact hne
    · exact ha t hold

theorem fireDelayedCallback_reg (env : ExecEnv) (t : Timer)
    (fetch : Option MemberInfo) (now : Int) (db : DB) (s : RegState) :
    (fireDelayedCallback env t fetch now db s).reg
      = { s with pendingBans := aerase t.key s.pendingBans } := by
  cases fetch with
  | none => rfl
  | some cur =>
      by_cases hr : t.roleId ∈ cur.roles
      · cases hp : t.ptype <;> simp [fireDelayedCallback, hr, hp]
      · simp [fireDelayedCallback, hr]

theorem keyClear_regStep (k : String) (s : RegState) (db : DB) (e : RegEvent)
    (hk : keyClear k s) (he : eventSchedKey e ≠ some k) :
    keyClear k (regStep s db e).1 ∧
    ∀ fr ∈ (regStep s db e).2.2, fr.key ≠ k := by
  cases e with
  | evTimeout env m roleId d now =>
      have hne : pendingKey m.userId m.guildId ≠ k := by
        intro hh; exact he (by simp [eventSchedKey, hh])
      refine ⟨?_, by intro fr hfr; simp [regStep] at hfr⟩
      cases hj : m.joinedAt with
      | none => simpa [regStep, timeoutMember, hj] using hk
      | some j =>
          by_cases hw : now - j < onboardingWindowMs
          · simpa [regStep, timeoutMember, hj, hw, scheduleDelayedTimeout] using
              keyClear_scheduleDelayed k .timeout m roleId d _ now s hk hne
          · simpa [regStep, timeoutMember, hj, hw] using hk
  | evTempBan env m roleId d now =>
      have hne : pendingKey m.userId m.guildId ≠ k := by
        intro hh; exact he (by simp [eventSchedKey, hh])
      refine ⟨?_, by intro fr hfr; simp [regStep] at hfr⟩
      cases hj : m.joinedAt with
      | none => simpa [regStep, tempBanMember, hj] using hk
      | some j =>
          by_cases hw : now - j < onboardingWindowMs
          · simpa [regStep, tempBanMember, hj, hw, scheduleDelayedTempBan] using
              keyClear_scheduleDelayed k .tempban m roleId d _ now s hk hne
          · simpa [regStep, tempBanMember, hj, hw] using hk
  | evCancel u g =>
      refine ⟨?_, by intro fr hfr; simp [regStep] at hfr⟩
      simpa [regStep, cancelPendingBan] using
        keyClear_cancelInternal k (pendingKey u g) s hk
  | evFire tid env fetch now =>
      obtain ⟨hm, ha⟩ := hk
      cases hf : s.armed.find? (fun t => t.tid == tid) with
      | none =>
          refine ⟨?_, ?_⟩
          · simpa [regStep, hf] using ⟨hm, ha⟩
          · intro fr hfr; simp [regStep, hf] at hfr
      | some t =>
          have htmem : t ∈ s.armed := List.mem_of_find?_eq_some hf
          have htk : t.key ≠ k := ha t htmem
          refine ⟨?_, ?_⟩
          · simp only [regStep, hf, fireDelayedCallback_reg]
            refine ⟨alookup_filter_none k _ _ hm, ?_⟩
            intro x hx
            exact ha x (List.mem_filter.mp hx).1
          · intro fr hfr
            simp only [regStep, hf, List.mem_singleton] at hfr
            rw [hfr]
            exact htk
  | evCleanup =>
      refine ⟨?_, by intro fr hfr; simp [regStep] at hfr⟩
      obtain ⟨hm, ha⟩ := hk
      refine ⟨rfl, ?_⟩
      intro t ht
      exact ha t (List.mem_filter.mp ht).1

theorem keyClear_runReg (k : String) (es : List RegEvent) :
    ∀ (s : RegState) (db : DB), keyClear k s →
      (∀ e ∈ es, eventSchedKey e ≠ some k) →
      ∀ fr ∈ (runReg s db es).2.2, fr.key ≠ k := by
  induction es with
  | nil => intro s db hk he fr hfr; simp [runReg] at hfr
  | cons e es ih =>
      intro s db hk he fr hfr
      have hstep := keyClear_regStep k s db e hk (he e (by simp))
      simp only [runReg] at hfr
      rcases List.mem_append.mp hfr with h1 | h2
      · exact hstep.2 fr h1
      · exact ih (regStep s db e).1 (regStep s db e).2.1 hstep.1
          (fun x hx => he x (by simp [hx])) fr h2

/-- Claim C8 (confirmed): `cancelPendingBan` returns true exactly when an
    entry exists for the (user, guild) key, removes that entry, and is a
    no-op returning false (state unchanged) when none exists — safe to
    call any number of times; and on a well-formed registry, after cancel
    no delayed-punishment timer for that key ever fires in any subsequent
    run of the event loop that does not schedule the key again. -/
theorem c8_cancel_semantics (u g : String) (s : RegState) (db : DB)
    (events : List RegEvent) (hs : GoodState s)
    (hnos : ∀ e ∈ events, eventSchedKey e ≠ some (pendingKey u g)) :
    (cancelPendingBan u g s).1 = (alookup (pendingKey u g) s.pendingBans).isSome ∧
    alookup (pendingKey u g) (cancelPendingBan u g s).2.pendingBans = none ∧
    (alookup (pendingKey u g) s.pendingBans = none → (cancelPendingBan u g s).2 = s) ∧
    (∀ fr ∈ (runReg (cancelPendingBan u g s).2 db events).2.2,
        fr.key ≠ pendingKey u g) := by
  refine ⟨?_, ?_, ?_, ?_⟩
  · unfold cancelPendingBan cancelPendingBanInternal
    cases h : alookup (pendingKey u g) s.pendingBans <;> simp [h]
  · exact (keyClear_after_cancel (pendingKey u g) s hs).1
  · intro h
    simp [cancelPendingBan, cancelPendingBanInternal, h]
  · exact keyClear_runReg (pendingKey u g) events _ db
      (keyClear_after_cancel (pendingKey u g) s hs) hnos

theorem c8_cancel_semantics_witness :
    (GoodState regOnePending ∧
     (∀ e ∈ [RegEvent.evFire 0 envOk (some memberU) 2000],
        eventSchedKey e ≠ some (pendingKey "u" "g"))) ∧
    (cancelPendingBan "u" "g" regOnePending).1
      = (alookup (pendingKey "u" "g") regOnePending.pendingBans).isSome ∧
    (∀ fr ∈ (runReg (cancelPendingBan "u" "g" regOnePending).2 []
        [RegEvent.evFire 0 envOk (some memberU) 2000]).2.2,
      fr.key ≠ pendingKey "u" "g") := by
  have h := c8_cancel_semantics "u" "g" regOnePending []
    [RegEvent.evFire 0 envOk (some memberU) 2000] (by decide) (by decide)
  exact ⟨⟨by decide, by decide⟩, h.1, h.2.2.2⟩

/-! ## Key-uniqueness lemmas for the pending map -/

theorem nodupKeys_filter {α : Type} (p : String × α → Bool)
    (l : List (String × α)) (h : (l.map Prod.fst).Nodup) :
    ((l.filter p).map Prod.fst).Nodup :=
  h.sublist ((List.filter_sublist l).map Prod.fst)

theorem not_mem_aerase_keys {α : Type} (k : String) (l : List (String × α)) :
    k ∉ (aerase k l).map Prod.fst := by
  intro hmem
  obtain ⟨kv, hkv, hfst⟩ := List.mem_map.mp hmem
  have := (List.mem_filter.mp hkv).2
  simp [bne_iff_ne] at this
  exact this hfst

theorem nodupKeys_aset {α : Type} (k : String) (v : α)
    (l : List (String × α)) (h : (l.map Prod.fst).Nodup) :
    ((aset k v l).map Prod.fst).Nodup := by
  simp only [aset, List.map_cons]
  exact List.nodup_cons.mpr ⟨not_mem_aerase_keys k l, nodupKeys_filter _ l h⟩

theorem keysNodup_cancelInternal (k : String) (s : RegState)
    (h : KeysNodup s) : KeysNodup (cancelPendingBanInternal k s).2 := by
  cases hl : alookup k s.pendingBans with
  | none => simpa [cancelPendingBanInternal, hl] using h
  | some p =>
      simp only [cancelPendingBanInternal, hl]
      exact nodupKeys_filter _ s.pendingBans h

theorem keysNodup_scheduleDelayed (pt : PunishType) (m : MemberInfo)
    (roleId : String) (dur : JsNum) (delay now : Int) (s : RegState)
    (h : KeysNodup s) :
    KeysNodup (scheduleDelayed pt m roleId dur delay now s) := by
  unfold scheduleDelayed KeysNodup
  exact nodupKeys_aset _ _ _
    (keysNodup_cancelInternal (pendingKey m.userId m.guildId) s h)

theorem keysNodup_regStep (s : RegState) (db : DB) (e : RegEvent)
    (h : KeysNodup s) : KeysNodup (regStep s db e).1 := by
  cases e with
  | evTimeout env m roleId d now =>
      cases hj : m.joinedAt with
      | none => simpa [regStep, timeoutMember, hj] using h
      | some j =>
          by_cases hw : now - j < onboardingWindowMs
          · simpa [regStep, timeoutMember, hj, hw, scheduleDelayedTimeout] using
              keysNodup_scheduleDelayed .timeout m roleId d _ now s h
          · simpa [regStep, timeoutMember, hj, hw] using h
  | evTempBan env m roleId d now =>
      cases hj : m.joinedAt with
      | none => simpa [regStep, tempBanMember, hj] using h
      | some j =>
          by_cases hw : now - j < onboardingWindowMs
          · simpa [regStep, tempBanMember, hj, hw, scheduleDelayedTempBan] using
              keysNodup_scheduleDelayed .tempban m roleId d _ now s h
          · simpa [regStep, tempBanMember, hj, hw] using h
  | evCancel u g =>
      simpa [regStep, cancelPendingBan] using
        keysNodup_cancelInternal (pendingKey u g) s h
  | evFire tid env fetch now =>
      cases hf : s.armed.find? (fun t => t.tid == tid) with
      | none => simpa [regStep, hf] using h
      | some t =>
          simp only [regStep, hf, fireDelayedCallback_reg]
          exact nodupKeys_filter _ s.pendingBans h
  | evCleanup =>
      simp [regStep, cleanupRegistry, KeysNodup]

/-- Claim C1 counterexample: with an active temp-ban row already stored
    for ("u", "g"), `addTempBan` for the same key inserts a second row
    with `active = true` without deactivating the first — two live
    `TempBanRecord`s for one key, refuting "creating/superseding an active
    temp-ban record deactivates the prior one first". -/
theorem c1_counterexample :
    rowUG.active = true ∧
    ((addTempBan "u" "g" "r2" (some 100) "y" 10 [rowUG]).filter
      (fun r => r.userId == "u" && r.guildId == "g" && r.active)).length = 2 := by
  decide

/-- Claim C1 (corrected): the registry half holds — the `pendingBans` map
    binds each (user, guild) key at most once through every event-loop
    step, and scheduling a new pending punishment first cancels the
    existing entry's timer, so afterwards the only armed timer for the key
    is the newly armed one (only one can ever fire); but `addTempBan` is a
    plain INSERT that appends a new active row and leaves every existing
    row untouched, so it does not deactivate a prior active record for the
    key. -/
theorem c1_supersede (s : RegState) (hs : GoodState s)
    (pt : PunishType) (m : MemberInfo) (roleId : String) (duration : JsNum)
    (delayMs now : Int) :
    (∀ t ∈ (scheduleDelayed pt m roleId duration delayMs now s).armed,
        t.key = pendingKey m.userId m.guildId → t.tid = s.nextId) ∧
    (∀ (s' : RegState) (db : DB) (e : RegEvent),
        KeysNodup s' → KeysNodup (regStep s' db e).1) ∧
    (∀ (u g rid : String) (unbanAt : JsNum) (reason : String)
        (dbNow : Int) (db : DB),
        addTempBan u g rid unbanAt reason dbNow db
          = db ++ [⟨freshId db, u, g, rid, dbNow, unbanAt, reason, true⟩]) := by
  refine ⟨?_, ?_, ?_⟩
  · intro t ht hkey
    have hkc := keyClear_after_cancel (pendingKey m.userId m.guildId) s hs
    unfold scheduleDelayed at ht
    rcases List.mem_cons.mp ht with hnew | hold
    · subst hnew
      simp [cancelInternal_nextId]
    · exact absurd hkey (hkc.2 t hold)
  · intro s' db e hkn
    exact keysNodup_regStep s' db e hkn
  · intro u g rid unbanAt reason dbNow db
    rfl

theorem c1_supersede_witness :
    GoodState regOnePending ∧
    (∀ t ∈ (scheduleDelayed .tempban memberU "r" (some 1) 500 0 regOnePending).armed,
        t.key = pendingKey memberU.userId memberU.guildId →
        t.tid = regOnePending.nextId) :=
  ⟨by decide,
   (c1_supersede regOnePending (by decide) .tempban memberU "r" (some 1) 500 0).1⟩

/-- Claim C7 counterexample: a role-change event that removes the
    configured trigger role "r" from member "u" runs the cancel path
    (`cancelRan = true`) but leaves the persisted store unchanged — the
    active `TempBanRecord` for ("u", "g") keeps `active = true`, refuting
    "if a TempBanRecord exists for that key, deactivates it". -/
theorem c7_counterexample :
    (handleRoleUpdate rolesFix envOk ["r"] ⟨"u", "g", some 0, []⟩ 0
        regEmpty [rowUG]).cancelRan = true ∧
    (handleRoleUpdate rolesFix envOk ["r"] ⟨"u", "g", some 0, []⟩ 0
        regEmpty [rowUG]).db = [rowUG] ∧
    rowUG.userId = "u" ∧ rowUG.guildId = "g" ∧ rowUG.active = true := by
  decide

/-- Claim C7 (corrected): when some removed role is a configured trigger
    role (and no trigger role is added), `handleRoleUpdate` calls the
    registry's `cancelPendingBan` for the (user, guild) key — but performs
    no persistence update: the `temp_bans` store is returned unchanged, so
    an existing active `TempBanRecord` for that key is not deactivated by
    voluntary role removal. -/
theorem c7_role_removal (roles : List (String × RoleCfg)) (env : ExecEnv)
    (oldRoles : List String) (m : MemberInfo) (now : Int)
    (s : RegState) (db : DB)
    (hrem : ∃ r ∈ oldRoles, r ∉ m.roles ∧ (alookup r roles).isSome)
    (hadd : ∀ r ∈ m.roles, r ∉ oldRoles → (alookup r roles).isSome = false) :
    handleRoleUpdate roles env oldRoles m now s db
      = ⟨true, none, (cancelPendingBan m.userId m.guildId s).2, db⟩ := by
  obtain ⟨r, hrold, hrnot, hrsome⟩ := hrem
  have hremfind : ((oldRoles.filter (fun x => !(m.roles.contains x))).find?
      (fun x => (alookup x roles).isSome)).isSome := by
    rw [List.find?_isSome]
    refine ⟨r, ?_, hrsome⟩
    refine List.mem_filter.mpr ⟨hrold, ?_⟩
    simp [hrnot]
  have haddfind : ((m.roles.filter (fun x => !(oldRoles.contains x))).find?
      (fun x => (alookup x roles).isSome)) = none := by
    rw [List.find?_eq_none]
    intro x hx
    have hxf := List.mem_filter.mp hx
    have hxold : x ∉ oldRoles := by simpa using hxf.2
    simp [hadd x hxf.1 hxold]
  obtain ⟨t, ht⟩ := Option.isSome_iff_exists.mp hremfind
  simp only [handleRoleUpdate, ht, haddfind]
  simp

theorem c7_role_removal_witness :
    ((∃ r ∈ ["r"], r ∉ ([] : List String) ∧ (alookup r rolesFix).isSome) ∧
     (∀ r ∈ ([] : List String), r ∉ ["r"] → (alookup r rolesFix).isSome = false)) ∧
    handleRoleUpdate rolesFix envOk ["r"] ⟨"u", "g", some 0, []⟩ 0 regEmpty [rowUG]
      = ⟨true, none, (cancelPendingBan "u" "g" regEmpty).2, [rowUG]⟩ :=
  ⟨⟨by decide, by decide⟩,
   c7_role_removal rolesFix envOk ["r"] ⟨"u", "g", some 0, []⟩ 0 regEmpty [rowUG]
     (by decide) (by decide)⟩
